import Mathlib

/-!
Verification development for the `cli` package: a minimal command-line
application runner that dispatches a process invocation to a nested tree of
named sub-commands, manages per-command flag definition/parsing, and resolves
the terminal process outcome (help rendering, cancellation, exit codes).

The definitions below are a shallow embedding of the Go source:
  * `CError` / `Exitf` / `errHelp`  — the error taxonomy (runner.go, part_003);
  * `FlagSet` / `newFlagSet`        — the abstract flag store (runner.go);
  * `Command`                       — the capability-probed command variants
    (cli.go, part_003: leaf commands, `Commands` tables, `Container`);
  * `name`/`synopsis`/`description`/`defineFlags` — capability probes (cli.go);
  * `CommandInfo` / `commandPath` / `lastCommandInfo` — the execution-context
    command path (context.go); the mutable `runtimeInfo.commands` slice is
    threaded as explicit state;
  * `engine`                        — the mutually recursive dispatch machinery
    `run`/`setup` (runner.go), `Commands.Run` (part_003) and dynamic `Run`
    dispatch, expressed as one well-founded recursion over a call marker;
  * `resolveOutcome` / `runnerMain` — `Runner.Main`'s outcome state machine
    (runner.go lines 53-92);
  * `trapSeqStep` / `trapSeqRun` / `forceTermHardExit` — the forced-termination
    signal counter (os.go `trapSeq`, installed by `Runner.Main` with
    `os.Exit(130)` as its callback).
-/

/-- Model of a Go `error` value produced inside the cli package.
`none : Option CError` stands for a nil error.

  * `help`     — the sentinel `errHelp = errors.New("help requested")`;
  * `flagHelp` — any error `e` with `errors.Is(e, flag.ErrHelp)`;
  * `exit c m` — an error produced by `Exitf`: its `Error()` text is `m` and it
    wraps `&exitError{code: c}` (so `errors.As(err, &exitError)` succeeds);
  * `msg s`    — any other error with `Error()` text `s`. -/
inductive CError where
  | help
  | flagHelp
  | exit (code : Int) (msg : String)
  | msg (s : String)
deriving Repr, DecidableEq

/-- `Exitf` (runner.go): builds an error carrying an explicit exit code and a
pre-formatted message (`fmt.Errorf(fmt.Sprintf(f, args...)+"%w", &exitError{code})`). -/
def Exitf (code : Int) (msg : String) : CError :=
  CError.exit code msg

/-- Abstract model of `*flag.FlagSet`: the set name plus the list of registered
flag names.  Parsing state/values are outside the engine's scope (the parse
strategy is pluggable). -/
structure FlagSet where
  fsName : String
  flags : List String
deriving Repr, DecidableEq

/-- `newFlagSet` (runner.go): fresh empty flag set named after the command
(`flag.NewFlagSet(name, flag.ContinueOnError)` with discarded output). -/
def newFlagSet (nm : String) : FlagSet :=
  ⟨nm, []⟩

/-- A `cli.Command` value together with its optional capabilities.

  * `leaf nm syn desc df runf` — an application command: each `Option` field
    records whether the concrete Go type implements the corresponding optional
    interface (`NameProvider`, `SynopsisProvider`, `DescriptionProvider`,
    `FlagDefiner`); `runf` is its `Run` body (returning an error or nil).
  * `table es` — a `Commands` map (part_003); modelled as an association list
    of unique keys.
  * `container w dn ds dd ddf` — a `*Container` (part_003) wrapping `w` with
    the four optional override fields `DoName`, `DoSynopsis`, `DoDescription`,
    `DoDefineFlags`. -/
inductive Command where
  | leaf (nm syn desc : Option String) (df : Option (FlagSet → FlagSet))
      (runf : List String → Option CError)
  | table (es : List (String × Command))
  | container (w : Command) (dn ds dd : Option String)
      (ddf : Option (FlagSet → FlagSet))

/-- The `Commands` map type (part_003), as an association list. -/
abbrev Commands := List (String × Command)

/-- The capability probe `name(cmd)` (cli.go): `cmd.(NameProvider)` check.
`Commands` does not implement `NameProvider`; `*Container` always does and
falls back to the wrapped command when `DoName` is nil. -/
def name : Command → String
  | Command.leaf nm _ _ _ _ => nm.getD ""
  | Command.table _ => ""
  | Command.container w dn _ _ _ =>
    match dn with
    | some s => s
    | none => name w

/-- The capability probe `synopsis(cmd)` (cli.go).  `Commands.Synopsis()`
returns the literal `"[help] <command>"`. -/
def synopsis : Command → String
  | Command.leaf _ syn _ _ _ => syn.getD ""
  | Command.table _ => "[help] <command>"
  | Command.container w _ ds _ _ =>
    match ds with
    | some s => s
    | none => synopsis w

/-- Insertion sort on strings, modelling `sort.Strings` in
`Commands.Description()` (the two agree on every input: string order is total
and antisymmetric, so every sort produces the same list). -/
def insertSorted (s : String) : List String → List String
  | [] => [s]
  | t :: ts => if s ≤ t then s :: t :: ts else t :: insertSorted s ts

/-- Sorts a list of strings, see `insertSorted`. -/
def sortStrings : List String → List String
  | [] => []
  | s :: ss => insertSorted s (sortStrings ss)

/-- Pads `s` with spaces on the right to width `w` (text/tabwriter cell
padding). -/
def padRight (s : String) (w : Nat) : String :=
  s ++ String.mk (List.replicate (w - s.length) ' ')

/-- First-match lookup in a command table, modelling Go's `c[name]` (keys in a
Go map are unique, so first-match agrees with map lookup). -/
def lookupCmd : List (String × Command) → String → Option Command
  | [], _ => none
  | (k, c) :: es, nm => if k = nm then some c else lookupCmd es nm

/-- `Commands.Description()` (part_003): the line `Commands:` followed by the
registered names in sorted order, tab-aligned (tabwriter with padding 2)
against each entry's own `Name()` capability. -/
def tableDescription (es : List (String × Command)) : String :=
  let keys := sortStrings (es.map Prod.fst)
  let cells := keys.map (fun k => "  " ++ k)
  let width := (cells.map String.length).foldl max 0 + 2
  let rows := keys.map (fun k =>
    padRight ("  " ++ k) width ++
      (match lookupCmd es k with
       | some c => name c
       | none => ""))
  "Commands:\n" ++ String.intercalate "\n" rows

/-- The capability probe `description(cmd)` (cli.go). -/
def description : Command → String
  | Command.leaf _ _ desc _ _ => desc.getD ""
  | Command.table es => tableDescription es
  | Command.container w _ _ dd _ =>
    match dd with
    | some s => s
    | none => description w

/-- Whether `cmd.(FlagDefiner)` succeeds (the probe in `setup`, runner.go):
`Commands` never implements `FlagDefiner`; `*Container` always does. -/
def hasFlagDefiner : Command → Bool
  | Command.leaf _ _ _ df _ => df.isSome
  | Command.table _ => false
  | Command.container _ _ _ _ _ => true

/-- `defineFlags(cmd, fs)` (cli.go) together with `Container.DefineFlags`
(part_003): apply the command's flag definition to the store; a no-op when the
capability is absent. -/
def defineFlags (cmd : Command) (fs : FlagSet) : FlagSet :=
  match cmd with
  | Command.leaf _ _ _ df _ =>
    match df with
    | some f => f fs
    | none => fs
  | Command.table _ => fs
  | Command.container w _ _ _ ddf =>
    match ddf with
    | some f => f fs
    | none => defineFlags w fs

/-- One entry of the execution path: `CommandInfo` (context.go).
`flagSet = none` models a nil `*flag.FlagSet`. -/
structure CommandInfo where
  name : String
  command : Command
  flagSet : Option FlagSet

/-- `commandPath(ctx)` (context.go): the names of the path entries recorded so
far, joined by single spaces through a string builder. -/
def commandPath (cs : List CommandInfo) : String :=
  cs.foldl (fun sb c => if sb = "" then sb ++ c.name else sb ++ " " ++ c.name) ""

/-- `lastCommandInfo(ctx)` (context.go); the Go function panics on an empty
path, modelled by `none`. -/
def lastCommandInfo (cs : List CommandInfo) : Option CommandInfo :=
  cs.getLast?

/-- The flag store `setup` (runner.go lines 146-151) attaches to a dispatch
step: a freshly created, `DefineFlags`-populated set when the command
implements `FlagDefiner`, and nil otherwise. -/
def fsOf (cmd : Command) (nm : String) : Option FlagSet :=
  if hasFlagDefiner cmd then some (defineFlags cmd (newFlagSet nm)) else none

/-- The pluggable parse strategy `DoParseFlags` (runner.go): takes the flag
store and the arguments, returns the remaining (non-flag) arguments or an
error. -/
abbrev ParseStrategy := FlagSet → List String → Except CError (List String)

/-- The `unknown command` usage error raised by `Commands.Run` (part_003
lines 35-40): `Exitf(2, "`+"`"+`%[1]s %[2]s`+"`"+`: unknown command\nRun ...", commandPath(ctx), name)`. -/
def unknownCommandError (path nm : String) : CError :=
  Exitf 2 ("\x60" ++ path ++ " " ++ nm ++ "\x60: unknown command\nRun \x60" ++
    path ++ " help\x60 for help.")

/-- Marker for the three mutually recursive procedures of the dispatch
machinery:

  * `disp cmd nm args`   — `run(ctx, cmd, name, args)` (runner.go 160-174);
  * `runC cmd args`      — the dynamic call `cmd.Run(ctx, args)`;
  * `tbl es help args`   — the body of `Commands.Run` (part_003 22-46) with its
    `help` local variable and `goto top` loop. -/
inductive ECall where
  | disp (cmd : Command) (nm : String) (args : List String)
  | runC (cmd : Command) (args : List String)
  | tbl (es : List (String × Command)) (helpFlag : Bool) (args : List String)

/-- A looked-up table entry is smaller than the table, for termination. -/
theorem lookupCmd_sizeOf {es : List (String × Command)} {nm : String}
    {cmd : Command} (h : lookupCmd es nm = some cmd) : sizeOf cmd < sizeOf es := by
  induction es with
  | nil => simp [lookupCmd] at h
  | cons e es ih =>
    obtain ⟨k, c⟩ := e
    by_cases hk : k = nm
    · simp [lookupCmd, hk] at h
      subst h
      simp
      omega
    · simp [lookupCmd, hk] at h
      have := ih h
      simp
      omega

/-- The dispatch/run machinery, threading the execution path (the mutable
`runtimeInfo.commands` slice of context.go) as explicit state.

  * `disp` (`run` + `setup`, runner.go): computes the flag store via `fsOf`,
    appends the path entry `{name, command, flagSet}`, then — only when a store
    was created — invokes the parse strategy, mapping a `flag.ErrHelp` result
    to the `errHelp` sentinel and returning any parse error; finally calls the
    command's `Run` with the leftover arguments.
  * `runC`: dynamic dispatch of `Run` — a leaf runs its body; `Commands.Run`
    enters the table loop with `help = false`; `Container.Run` delegates to
    the wrapped command.
  * `tbl` (`Commands.Run`): empty arguments yield the help sentinel; a leading
    literal `help` token is consumed, setting the help flag (`goto top`);
    otherwise the first token is looked up — absence yields the exit-code-2
    usage error embedding the accumulated command path; with the help flag set
    the step is registered via `setup` without parsing or running it and the
    help sentinel is returned; otherwise the sub-command is dispatched on the
    remaining arguments. -/
def engine (parse : ParseStrategy) (st : List CommandInfo) (c : ECall) :
    List CommandInfo × Option CError :=
  match c with
  | ECall.disp cmd nm args =>
    match fsOf cmd nm with
    | none => engine parse (st ++ [⟨nm, cmd, none⟩]) (ECall.runC cmd args)
    | some f =>
      match parse f args with
      | Except.error e =>
        (st ++ [⟨nm, cmd, some f⟩],
         some (if e = CError.flagHelp then CError.help else e))
      | Except.ok rest => engine parse (st ++ [⟨nm, cmd, some f⟩]) (ECall.runC cmd rest)
  | ECall.runC cmd args =>
    match cmd with
    | Command.leaf _ _ _ _ runf => (st, runf args)
    | Command.table es => engine parse st (ECall.tbl es false args)
    | Command.container w _ _ _ _ => engine parse st (ECall.runC w args)
  | ECall.tbl es helpFlag args =>
    match args with
    | [] => (st, some CError.help)
    | nm :: rest =>
      if nm = "help" then engine parse st (ECall.tbl es true rest)
      else
        match hl : lookupCmd es nm with
        | none => (st, some (unknownCommandError (commandPath st) nm))
        | some cmd =>
          if helpFlag then (st ++ [⟨nm, cmd, fsOf cmd nm⟩], some CError.help)
          else engine parse st (ECall.disp cmd nm rest)
termination_by
  ((match c with
    | ECall.disp cmd _ _ => sizeOf cmd
    | ECall.runC cmd _ => sizeOf cmd
    | ECall.tbl es _ _ => sizeOf es),
   (match c with
    | ECall.disp _ _ _ => 1
    | ECall.runC _ _ => 0
    | ECall.tbl _ _ _ => 0),
   (match c with
    | ECall.tbl _ _ args => args.length
    | ECall.disp _ _ _ => 0
    | ECall.runC _ _ => 0))
decreasing_by
  · apply Prod.Lex.right
    apply Prod.Lex.left
    omega
  · apply Prod.Lex.right
    apply Prod.Lex.left
    omega
  · apply Prod.Lex.left
    simp only [Command.table.sizeOf_spec]
    omega
  · apply Prod.Lex.left
    simp only [Command.container.sizeOf_spec]
    omega
  · apply Prod.Lex.right
    apply Prod.Lex.right
    simp only [List.length_cons]
    omega
  · apply Prod.Lex.left
    exact lookupCmd_sizeOf hl

/-- Unfolding: `run` on a command without the `FlagDefiner` capability pushes
its path entry with a nil flag store and skips parsing entirely. -/
theorem engine_disp_none {cmd : Command} {nm : String} (parse : ParseStrategy)
    (st : List CommandInfo) (args : List String) (h : fsOf cmd nm = none) :
    engine parse st (ECall.disp cmd nm args) =
      engine parse (st ++ [⟨nm, cmd, none⟩]) (ECall.runC cmd args) := by
  rw [engine]
  simp [h]

/-- Unfolding: `run` on a `FlagDefiner` whose parse fails returns the parse
error (with `flag.ErrHelp` mapped to the help sentinel), the entry already
pushed. -/
theorem engine_disp_some_err {cmd : Command} {nm : String} {f : FlagSet}
    {e : CError} {parse : ParseStrategy} {args : List String}
    (st : List CommandInfo) (h : fsOf cmd nm = some f)
    (hp : parse f args = Except.error e) :
    engine parse st (ECall.disp cmd nm args) =
      (st ++ [⟨nm, cmd, some f⟩],
       some (if e = CError.flagHelp then CError.help else e)) := by
  rw [engine]
  simp [h, hp]

/-- Unfolding: `run` on a `FlagDefiner` whose parse succeeds runs the command
on the leftover arguments. -/
theorem engine_disp_some_ok {cmd : Command} {nm : String} {f : FlagSet}
    {parse : ParseStrategy} {args rest : List String}
    (st : List CommandInfo) (h : fsOf cmd nm = some f)
    (hp : parse f args = Except.ok rest) :
    engine parse st (ECall.disp cmd nm args) =
      engine parse (st ++ [⟨nm, cmd, some f⟩]) (ECall.runC cmd rest) := by
  rw [engine]
  simp [h, hp]

/-- Unfolding: a leaf's `Run` applies its body to the arguments and leaves the
path untouched. -/
theorem engine_runC_leaf (parse : ParseStrategy) (st : List CommandInfo)
    (nm syn desc : Option String) (df : Option (FlagSet → FlagSet))
    (runf : List String → Option CError) (args : List String) :
    engine parse st (ECall.runC (Command.leaf nm syn desc df runf) args) =
      (st, runf args) := by
  rw [engine]

/-- Unfolding: `Commands.Run` enters the table loop with the help flag clear. -/
theorem engine_runC_table (parse : ParseStrategy) (st : List CommandInfo)
    (es : List (String × Command)) (args : List String) :
    engine parse st (ECall.runC (Command.table es) args) =
      engine parse st (ECall.tbl es false args) := by
  rw [engine]

/-- Unfolding: `Container.Run` delegates to the wrapped command. -/
theorem engine_runC_container (parse : ParseStrategy) (st : List CommandInfo)
    (w : Command) (dn ds dd : Option String) (ddf : Option (FlagSet → FlagSet))
    (args : List String) :
    engine parse st (ECall.runC (Command.container w dn ds dd ddf) args) =
      engine parse st (ECall.runC w args) := by
  rw [engine]

/-- Unfolding: a bare table (no remaining arguments) yields the help sentinel. -/
theorem engine_tbl_nil (parse : ParseStrategy) (st : List CommandInfo)
    (es : List (String × Command)) (b : Bool) :
    engine parse st (ECall.tbl es b []) = (st, some CError.help) := by
  rw [engine]

/-- Unfolding: a leading literal `help` token is consumed and sets the help
flag (`goto top`). -/
theorem engine_tbl_help (parse : ParseStrategy) (st : List CommandInfo)
    (es : List (String × Command)) (b : Bool) (rest : List String) :
    engine parse st (ECall.tbl es b ("help" :: rest)) =
      engine parse st (ECall.tbl es true rest) := by
  rw [engine]
  simp

/-- Unfolding: a first token that is absent from the table fails with the
exit-code-2 unknown-command error embedding the accumulated command path. -/
theorem engine_tbl_miss {es : List (String × Command)} {nm : String}
    (parse : ParseStrategy) (st : List CommandInfo) (b : Bool)
    (rest : List String) (hnm : nm ≠ "help") (h : lookupCmd es nm = none) :
    engine parse st (ECall.tbl es b (nm :: rest)) =
      (st, some (unknownCommandError (commandPath st) nm)) := by
  rw [engine]
  simp only [if_neg hnm]
  split
  · rfl
  · rename_i cmd heq
    simp [h] at heq

/-- Unfolding: a found sub-command with the help flag set is registered via
`setup` (entry with its flag store appended) without being parsed or run, and
the help sentinel is returned. -/
theorem engine_tbl_hit_help {es : List (String × Command)} {nm : String}
    {cmd : Command} (parse : ParseStrategy) (st : List CommandInfo)
    (rest : List String) (hnm : nm ≠ "help") (h : lookupCmd es nm = some cmd) :
    engine parse st (ECall.tbl es true (nm :: rest)) =
      (st ++ [⟨nm, cmd, fsOf cmd nm⟩], some CError.help) := by
  rw [engine]
  simp only [if_neg hnm]
  split
  · rename_i heq
    simp [h] at heq
  · rename_i cmd2 heq
    rw [h] at heq
    injection heq with heq2
    subst heq2
    simp

/-- Unfolding: a found sub-command with the help flag clear is dispatched on
the remaining arguments. -/
theorem engine_tbl_hit_run {es : List (String × Command)} {nm : String}
    {cmd : Command} (parse : ParseStrategy) (st : List CommandInfo)
    (rest : List String) (hnm : nm ≠ "help") (h : lookupCmd es nm = some cmd) :
    engine parse st (ECall.tbl es false (nm :: rest)) =
      engine parse st (ECall.disp cmd nm rest) := by
  conv_lhs => rw [engine]
  simp only [if_neg hnm]
  split
  · rename_i heq
    simp [h] at heq
  · rename_i cmd2 heq
    rw [h] at heq
    injection heq with heq2
    subst heq2
    simp

/-- The execution path output by any engine call extends its input path:
entries are only ever appended (context.go's `withCommandInfo` only does
`append`), never reordered, truncated or removed. -/
theorem engine_appends (parse : ParseStrategy) (st : List CommandInfo)
    (c : ECall) : ∃ t, (engine parse st c).1 = st ++ t := by
  match c with
  | ECall.disp cmd nm args =>
    match h : fsOf cmd nm with
    | none =>
      rw [engine_disp_none parse st args h]
      obtain ⟨t, ht⟩ := engine_appends parse (st ++ [⟨nm, cmd, none⟩]) (ECall.runC cmd args)
      exact ⟨⟨nm, cmd, none⟩ :: t, by rw [ht]; simp⟩
    | some f =>
      match hp : parse f args with
      | Except.error e =>
        rw [engine_disp_some_err st h hp]
        exact ⟨[⟨nm, cmd, some f⟩], rfl⟩
      | Except.ok rest =>
        rw [engine_disp_some_ok st h hp]
        obtain ⟨t, ht⟩ := engine_appends parse (st ++ [⟨nm, cmd, some f⟩]) (ECall.runC cmd rest)
        exact ⟨⟨nm, cmd, some f⟩ :: t, by rw [ht]; simp⟩
  | ECall.runC cmd args =>
    match cmd with
    | Command.leaf nm syn desc df runf =>
      rw [engine_runC_leaf]
      exact ⟨[], by simp⟩
    | Command.table es =>
      rw [engine_runC_table]
      exact engine_appends parse st (ECall.tbl es false args)
    | Command.container w dn ds dd ddf =>
      rw [engine_runC_container]
      exact engine_appends parse st (ECall.runC w args)
  | ECall.tbl es b args =>
    match args with
    | [] =>
      rw [engine_tbl_nil]
      exact ⟨[], by simp⟩
    | nm :: rest =>
      by_cases hnm : nm = "help"
      · subst hnm
        rw [engine_tbl_help]
        exact engine_appends parse st (ECall.tbl es true rest)
      · match h : lookupCmd es nm with
        | none =>
          rw [engine_tbl_miss parse st b rest hnm h]
          exact ⟨[], by simp⟩
        | some cmd =>
          match b with
          | true =>
            rw [engine_tbl_hit_help parse st rest hnm h]
            exact ⟨[⟨nm, cmd, fsOf cmd nm⟩], rfl⟩
          | false =>
            rw [engine_tbl_hit_run parse st rest hnm h]
            exact engine_appends parse st (ECall.disp cmd nm rest)
termination_by
  ((match c with
    | ECall.disp cmd _ _ => sizeOf cmd
    | ECall.runC cmd _ => sizeOf cmd
    | ECall.tbl es _ _ => sizeOf es),
   (match c with
    | ECall.disp _ _ _ => 1
    | ECall.runC _ _ => 0
    | ECall.tbl _ _ _ => 0),
   (match c with
    | ECall.tbl _ _ args => args.length
    | ECall.disp _ _ _ => 0
    | ECall.runC _ _ => 0))
decreasing_by
  · apply Prod.Lex.right
    apply Prod.Lex.left
    omega
  · apply Prod.Lex.right
    apply Prod.Lex.left
    omega
  · apply Prod.Lex.left
    simp only [Command.table.sizeOf_spec]
    omega
  · apply Prod.Lex.left
    simp only [Command.container.sizeOf_spec]
    omega
  · apply Prod.Lex.right
    apply Prod.Lex.right
    simp only [List.length_cons]
    omega
  · apply Prod.Lex.left
    exact lookupCmd_sizeOf h

/-- A dispatch step (`run`, runner.go) appends exactly one entry — the
dispatched command with its computed flag store — before anything else; every
later entry (from nested dispatches) comes strictly after it. -/
theorem engine_disp_appends_entry (parse : ParseStrategy) (st : List CommandInfo)
    (cmd : Command) (nm : String) (args : List String) :
    ∃ t, (engine parse st (ECall.disp cmd nm args)).1 =
      st ++ ⟨nm, cmd, fsOf cmd nm⟩ :: t := by
  match h : fsOf cmd nm with
  | none =>
    rw [engine_disp_none parse st args h]
    obtain ⟨t, ht⟩ := engine_appends parse (st ++ [⟨nm, cmd, none⟩]) (ECall.runC cmd args)
    refine ⟨t, ?_⟩
    rw [ht]
    simp
  | some f =>
    match hp : parse f args with
    | Except.error e =>
      rw [engine_disp_some_err st h hp]
      exact ⟨[], by simp⟩
    | Except.ok rest =>
      rw [engine_disp_some_ok st h hp]
      obtain ⟨t, ht⟩ := engine_appends parse (st ++ [⟨nm, cmd, some f⟩]) (ECall.runC cmd rest)
      refine ⟨t, ?_⟩
      rw [ht]
      simp

/-- `errors.As(err, &exitError)` (runner.go line 84): extracts the embedded
exit code and the error's message when the error chain carries an
`*exitError`. -/
def errAsExit : Option CError → Option (Int × String)
  | some (CError.exit c m) => some (c, m)
  | _ => none

/-- The `Error()` text of an error, as printed by `fmt.Println(err)`
(runner.go lines 85 and 89).  `flag.ErrHelp`'s text is
`"flag: help requested"`; an `Exitf` error prints its formatted message (the
wrapped `exitError`'s own `Error()` is empty). -/
def errMsg : CError → String
  | CError.help => "help requested"
  | CError.flagHelp => "flag: help requested"
  | CError.exit _ m => m
  | CError.msg s => s

/-- Terminal outcome of `Runner.Main` (runner.go lines 73-92).

  * `usage`        — usage/flags rendered to stdout, `os.Exit(0)`;
  * `sigExit`      — `os.Exit(130)`, no message;
  * `codeExit c m` — message `m` printed, `os.Exit(c)`;
  * `failExit m`   — message `m` printed, `os.Exit(1)`;
  * `ok`           — `Main` returns normally (process exit 0). -/
inductive Outcome where
  | usage
  | sigExit
  | codeExit (code : Int) (msg : String)
  | failExit (msg : String)
  | ok
deriving Repr, DecidableEq

/-- The outcome-resolution chain of `Runner.Main` (runner.go lines 73-92),
checked in source order: `err == errHelp` first, then `baseCtx.Err() != nil`
(the execution scope was cancelled by a trapped signal), then
`errors.As(err, &exitError)`, then any non-nil error, and finally the nil
fall-through. -/
def resolveOutcome (err : Option CError) (cancelled : Bool) : Outcome :=
  if err = some CError.help then Outcome.usage
  else if cancelled then Outcome.sigExit
  else
    match errAsExit err with
    | some (c, m) => Outcome.codeExit c m
    | none =>
      match err with
      | some e => Outcome.failExit (errMsg e)
      | none => Outcome.ok

/-- Go's `path.Base`: the last element of the path after stripping trailing
slashes; `"."` for the empty string; `"/"` when the path is all slashes. -/
def pathBase (p : String) : String :=
  if p = "" then "."
  else
    let stripped := p.toList.reverse.dropWhile (fun ch => ch = '/')
    let base := stripped.takeWhile (fun ch => ch ≠ '/')
    if base = [] then "/" else String.mk base.reverse

/-- The top-level command name chosen by `Runner.Main` (runner.go lines
68-71): the root command's probed `Name()` when non-empty, and only otherwise
the base name of `os.Args[0]`. -/
def mainExe (cmd : Command) (argv0 : String) : String :=
  let exe := name cmd
  if exe = "" then pathBase argv0 else exe

/-- `Runner.Main` (runner.go lines 53-92) as a function of the dispatch
inputs: runs the engine on the root command under the resolved top-level name
with `os.Args[1:]` as arguments, then resolves the terminal outcome from the
returned error and the cancellation state of the execution scope.  Returns the
outcome together with the recorded command path (read by `printUsage` via
`lastCommandInfo`). -/
def runnerMain (parse : ParseStrategy) (cmd : Command) (argv0 : String)
    (argvRest : List String) (cancelled : Bool) : Outcome × List CommandInfo :=
  let r := engine parse [] (ECall.disp cmd (mainExe cmd argv0) argvRest)
  (resolveOutcome r.2 cancelled, r.1)

/-- An OS signal kind (`os.Signal`), identified by name. -/
abbrev Sig := String

/-- Pointwise update of the per-signal counter map `cnt` (os.go `trapSeq`). -/
def updateCnt (cnt : Sig → Nat) (s : Sig) (v : Nat) : Sig → Nat :=
  fun t => if t = s then v else cnt t

/-- One loop iteration of `trapSeq` (os.go lines 28-36): increment the
counter of the received signal; when it reaches `n` the counter resets to zero
and the callback fires (`true`), otherwise the new count is stored. -/
def trapSeqStep (n : Nat) (cnt : Sig → Nat) (sig : Sig) : (Sig → Nat) × Bool :=
  let m := cnt sig + 1
  if m ≠ n then (updateCnt cnt sig m, false)
  else (updateCnt cnt sig 0, true)

/-- The `trapSeq` listener loop (os.go lines 26-37) over the sequence of
delivered signals, returning the final counters and the list of signals on
which the callback fired. -/
def trapSeqRun (n : Nat) (cnt : Sig → Nat) : List Sig → (Sig → Nat) × List Sig
  | [] => (cnt, [])
  | s :: rest =>
    let step := trapSeqStep n cnt s
    let rec2 := trapSeqRun n step.1 rest
    (rec2.1, (if step.2 then [s] else []) ++ rec2.2)

/-- The forced-termination escape hatch installed by `Runner.Main` (runner.go
lines 60-64): when `ForceTerm > 0`, `trapSeq` is armed with
`func(os.Signal) { os.Exit(130) }`, so the first firing hard-exits the process
with code 130, bypassing normal unwind and independent of whether the running
command observes cancellation.  `none` means the hatch never fires. -/
def forceTermHardExit (forceTerm : Nat) (sigs : List Sig) : Option Int :=
  if forceTerm > 0 ∧ (trapSeqRun forceTerm (fun _ => 0) sigs).2 ≠ [] then some 130
  else none

/-- A concrete pluggable parse strategy used for witnesses: parses no flags
and returns all arguments as leftovers. -/
def okParse : ParseStrategy := fun _ as => Except.ok as

/-- A `Run` body that succeeds and ignores its arguments (like the example
sleep command with zero duration). -/
def sampleNoopRun : List String → Option CError := fun _ => none

/-- A leaf command implementing none of the optional capabilities. -/
def sampleLeaf : Command :=
  Command.leaf none none none none sampleNoopRun

/-- A leaf command implementing `FlagDefiner` (registers one flag `d`, like
the example sleep command). -/
def sampleFlagLeaf : Command :=
  Command.leaf none none none (some (fun fs => ⟨fs.fsName, fs.flags ++ ["d"]⟩))
    sampleNoopRun

/-- A leaf command implementing `NameProvider` with a non-empty name. -/
def namedRootLeaf : Command :=
  Command.leaf (some "rootname") none none none sampleNoopRun

/-- C1: the terminal outcome of `Runner.Main` is resolved in this exact
order: (1) the help sentinel renders usage and exits 0 even when cancellation
also occurred; (2) otherwise a cancelled execution scope exits 130; (3)
otherwise an error with an embedded exit code prints its message and exits
with that code; (4) otherwise any non-nil error prints and exits 1; (5) a nil
error exits 0.  Case (3) in particular shows an explicit exit-code error takes
precedence over the generic code-1 fallback. -/
theorem main_outcome_resolution_order :
    (∀ cancelled : Bool, resolveOutcome (some CError.help) cancelled = Outcome.usage) ∧
    (∀ e : Option CError, e ≠ some CError.help →
      resolveOutcome e true = Outcome.sigExit) ∧
    (∀ (code : Int) (m : String),
      resolveOutcome (some (CError.exit code m)) false = Outcome.codeExit code m) ∧
    (∀ e : CError, e ≠ CError.help → errAsExit (some e) = none →
      resolveOutcome (some e) false = Outcome.failExit (errMsg e)) ∧
    resolveOutcome none false = Outcome.ok := by
  refine ⟨?_, ?_, ?_, ?_, rfl⟩
  · intro cancelled
    simp [resolveOutcome]
  · intro e he
    simp [resolveOutcome, he]
  · intro code m
    simp [resolveOutcome, errAsExit]
  · intro e he ha
    simp [resolveOutcome, he, ha]

/-- Witness for C1 at concrete inputs: an unclassified error under
cancellation yields exit 130; an `Exitf 7` error yields exit 7 with its
message; the same unclassified error without cancellation yields exit 1. -/
theorem main_outcome_resolution_order_witness :
    resolveOutcome (some (CError.msg "boom")) true = Outcome.sigExit ∧
    resolveOutcome (some (CError.exit 7 "seven")) false = Outcome.codeExit 7 "seven" ∧
    resolveOutcome (some (CError.msg "boom")) false = Outcome.failExit "boom" :=
  ⟨main_outcome_resolution_order.2.1 (some (CError.msg "boom")) (by decide),
   main_outcome_resolution_order.2.2.1 7 "seven",
   main_outcome_resolution_order.2.2.2.1 (CError.msg "boom") (by decide) (by decide)⟩

/-- C3 counterexample: an error carrying the explicit exit code 5, with the
execution scope cancelled, makes `Runner.Main` exit 130 (the cancellation
branch fires first, runner.go line 80) — not exit 5 with its message printed
as the claim states. -/
theorem cancellation_beats_exit_code_error :
    resolveOutcome (some (CError.exit 5 "boom")) true = Outcome.sigExit ∧
    Outcome.sigExit ≠ Outcome.codeExit 5 "boom" := by
  constructor
  · rfl
  · decide

/-- C3 (amended): when the dispatch result is neither nil nor the help
sentinel, cancellation of the execution scope takes priority over every error
kind — including an explicit exit-code error — yielding exit 130; an explicit
exit-code error wins over the generic exit-1 fallback only when the scope was
not cancelled. -/
theorem cancellation_priority :
    (∀ e : Option CError, e ≠ some CError.help →
      resolveOutcome e true = Outcome.sigExit) ∧
    (∀ (code : Int) (m : String),
      resolveOutcome (some (CError.exit code m)) true = Outcome.sigExit) ∧
    (∀ (code : Int) (m : String),
      resolveOutcome (some (CError.exit code m)) false = Outcome.codeExit code m) := by
  refine ⟨?_, ?_, ?_⟩
  · intro e he
    simp [resolveOutcome, he]
  · intro code m
    simp [resolveOutcome]
  · intro code m
    simp [resolveOutcome, errAsExit]

/-- Witness for C3 (amended) at concrete inputs. -/
theorem cancellation_priority_witness :
    resolveOutcome (some (CError.msg "x")) true = Outcome.sigExit ∧
    resolveOutcome (some (CError.exit 5 "boom")) true = Outcome.sigExit ∧
    resolveOutcome (some (CError.exit 5 "boom")) false = Outcome.codeExit 5 "boom" :=
  ⟨cancellation_priority.1 (some (CError.msg "x")) (by decide),
   cancellation_priority.2.1 5 "boom",
   cancellation_priority.2.2 5 "boom"⟩

/-- C4: for every command table and every first token that is absent from the
table (and is not the literal `help`), `Commands.Run` fails with a usage error
whose message contains the full space-joined command path accumulated so far
followed by the offending name, and whose embedded exit code is 2. -/
theorem unknown_name_usage_error (parse : ParseStrategy) (st : List CommandInfo)
    (es : List (String × Command)) (b : Bool) (nm : String) (args : List String)
    (hnm : nm ≠ "help") (h : lookupCmd es nm = none) :
    ∃ pre post, engine parse st (ECall.tbl es b (nm :: args)) =
      (st, some (CError.exit 2 (pre ++ (commandPath st ++ " " ++ nm) ++ post))) := by
  refine ⟨"\x60",
    "\x60: unknown command\nRun \x60" ++ commandPath st ++ " help\x60 for help.", ?_⟩
  rw [engine_tbl_miss parse st b args hnm h]
  simp only [unknownCommandError, Exitf, String.append_assoc]

/-- Witness for C4: the empty table, invoked as `foo` with a root entry
already on the path. -/
theorem unknown_name_usage_error_witness :
    ("foo" : String) ≠ "help" ∧ lookupCmd [] "foo" = none ∧
    (∃ pre post, engine okParse [⟨"prog", sampleLeaf, none⟩]
        (ECall.tbl [] false ["foo"]) =
      ([⟨"prog", sampleLeaf, none⟩],
       some (CError.exit 2
         (pre ++ (commandPath [⟨"prog", sampleLeaf, none⟩] ++ " " ++ "foo") ++ post)))) :=
  ⟨by decide, rfl,
   unknown_name_usage_error okParse [⟨"prog", sampleLeaf, none⟩] [] false "foo" []
     (by decide) rfl⟩

/-- C5: with a leading literal `help` token followed by the name of an
existing sub-command, `Commands.Run` registers the step — name, command and
its freshly created flag store — onto the command path without parsing
arguments against it and without invoking its `Run` (the result is the same
for every parse strategy, and the command's run body is never applied), then
returns the help sentinel; the registered entry is exactly the last path
entry, the one `Runner.printUsage` observes through `lastCommandInfo`. -/
theorem help_registers_step_without_running (parse : ParseStrategy)
    (st : List CommandInfo) (es : List (String × Command)) (nm : String)
    (rest : List String) (cmd : Command)
    (hnm : nm ≠ "help") (h : lookupCmd es nm = some cmd) :
    engine parse st (ECall.tbl es false ("help" :: nm :: rest)) =
      (st ++ [⟨nm, cmd, fsOf cmd nm⟩], some CError.help) ∧
    lastCommandInfo (engine parse st (ECall.tbl es false ("help" :: nm :: rest))).1 =
      some ⟨nm, cmd, fsOf cmd nm⟩ := by
  have h1 : engine parse st (ECall.tbl es false ("help" :: nm :: rest)) =
      (st ++ [⟨nm, cmd, fsOf cmd nm⟩], some CError.help) := by
    rw [engine_tbl_help, engine_tbl_hit_help parse st rest hnm h]
  refine ⟨h1, ?_⟩
  rw [h1]
  simp [lastCommandInfo]

/-- Witness for C5: `help a` against the table `{a: sampleFlagLeaf}`. -/
theorem help_registers_step_without_running_witness :
    ("a" : String) ≠ "help" ∧
    lookupCmd [("a", sampleFlagLeaf)] "a" = some sampleFlagLeaf ∧
    (engine okParse [] (ECall.tbl [("a", sampleFlagLeaf)] false ["help", "a"]) =
      ([] ++ [⟨"a", sampleFlagLeaf, fsOf sampleFlagLeaf "a"⟩], some CError.help) ∧
     lastCommandInfo (engine okParse []
         (ECall.tbl [("a", sampleFlagLeaf)] false ["help", "a"])).1 =
       some ⟨"a", sampleFlagLeaf, fsOf sampleFlagLeaf "a"⟩) :=
  ⟨by decide, by simp [lookupCmd],
   help_registers_step_without_running okParse [] [("a", sampleFlagLeaf)] "a" []
     sampleFlagLeaf (by decide) (by simp [lookupCmd])⟩

/-- The table with every entry registered under the literal key `help`
removed (a specification-side construct used to state that such entries are
unreachable). -/
def eraseHelpKey (es : List (String × Command)) : List (String × Command) :=
  es.filter (fun e => e.1 != "help")

/-- Looking up any name other than `help` is unaffected by removing the
`help`-keyed entries. -/
theorem lookupCmd_eraseHelpKey (es : List (String × Command)) (nm : String)
    (hnm : nm ≠ "help") : lookupCmd (eraseHelpKey es) nm = lookupCmd es nm := by
  induction es with
  | nil => rfl
  | cons e es ih =>
    obtain ⟨k, c⟩ := e
    by_cases hk : k = "help"
    · subst hk
      have hne : ("help" : String) ≠ nm := fun hh => hnm hh.symm
      simp only [eraseHelpKey, List.filter] at ih ⊢
      simp only [lookupCmd, if_neg hne]
      simpa using ih
    · simp only [eraseHelpKey, List.filter] at ih ⊢
      have hb : (k != "help") = true := by simpa using hk
      rw [hb]
      simp only [lookupCmd]
      by_cases hkn : k = nm
      · simp [hkn]
      · simp only [if_neg hkn]
        simpa using ih

/-- C10: a sub-command registered under the literal key `help` is unreachable
by direct dispatch: `Commands.Run` behaves identically whether or not such an
entry is present, for every argument list, path state, help-flag state and
parse strategy — a leading `help` token is always consumed as a help request
before any table lookup, so the lookup name is never `help` and the entry is
never looked up, parsed or run. -/
theorem help_key_entry_unreachable :
    ∀ (args : List String) (parse : ParseStrategy) (st : List CommandInfo)
      (es : List (String × Command)) (b : Bool),
      engine parse st (ECall.tbl (eraseHelpKey es) b args) =
        engine parse st (ECall.tbl es b args) := by
  intro args
  induction args with
  | nil =>
    intro parse st es b
    rw [engine_tbl_nil, engine_tbl_nil]
  | cons a rest ih =>
    intro parse st es b
    by_cases ha : a = "help"
    · subst ha
      rw [engine_tbl_help, engine_tbl_help]
      exact ih parse st es true
    · have hl := lookupCmd_eraseHelpKey es a ha
      match h : lookupCmd es a with
      | none =>
        rw [engine_tbl_miss parse st b rest ha (hl.trans h),
          engine_tbl_miss parse st b rest ha h]
      | some cmd =>
        match b with
        | true =>
          rw [engine_tbl_hit_help parse st rest ha (hl.trans h),
            engine_tbl_hit_help parse st rest ha h]
        | false =>
          rw [engine_tbl_hit_run parse st rest ha (hl.trans h),
            engine_tbl_hit_run parse st rest ha h]

/-- C2 counterexample: dispatching a command with no flag-definition
capability pushes a path entry whose flag store is absent (`FlagSet: nil` in
`setup`, runner.go lines 146-151) — no empty store is created, contradicting
the claim that the entry still carries a (zero-flag) store. -/
theorem flagless_dispatch_store_absent :
    fsOf sampleLeaf "x" = none ∧
    (engine okParse [] (ECall.disp sampleLeaf "x" [])).1 =
      [⟨"x", sampleLeaf, none⟩] ∧
    (engine okParse [] (ECall.disp sampleLeaf "x" [])).1.map CommandInfo.flagSet =
      [none] := by
  have hfs : fsOf sampleLeaf "x" = none := rfl
  have h1 : (engine okParse [] (ECall.disp sampleLeaf "x" [])).1 =
      [⟨"x", sampleLeaf, none⟩] := by
    rw [engine_disp_none okParse [] [] hfs]
    simp only [sampleLeaf]
    rw [engine_runC_leaf]
    simp [sampleLeaf]
  refine ⟨hfs, h1, ?_⟩
  rw [h1]
  rfl

/-- C2 (amended): every dispatch step pushes exactly one path entry carrying
the flag store computed by `setup` — a fresh store populated by the command's
flag definition when the `FlagDefiner` capability is present, and an absent
(nil) store when it is not, in which case the parse strategy is never invoked
and the arguments flow to `Run` unchanged. -/
theorem dispatch_store_policy (parse : ParseStrategy) (st : List CommandInfo)
    (cmd : Command) (nm : String) (args : List String) :
    (∃ t, (engine parse st (ECall.disp cmd nm args)).1 =
      st ++ ⟨nm, cmd, fsOf cmd nm⟩ :: t) ∧
    (hasFlagDefiner cmd = true →
      fsOf cmd nm = some (defineFlags cmd (newFlagSet nm))) ∧
    (hasFlagDefiner cmd = false →
      fsOf cmd nm = none ∧
      engine parse st (ECall.disp cmd nm args) =
        engine parse (st ++ [⟨nm, cmd, none⟩]) (ECall.runC cmd args)) := by
  refine ⟨engine_disp_appends_entry parse st cmd nm args, ?_, ?_⟩
  · intro h
    simp [fsOf, h]
  · intro h
    have hfs : fsOf cmd nm = none := by simp [fsOf, h]
    exact ⟨hfs, engine_disp_none parse st args hfs⟩

/-- Witness for C2 (amended): a command with flags gets a populated store; a
flagless command gets an absent store and skips parsing. -/
theorem dispatch_store_policy_witness :
    (hasFlagDefiner sampleFlagLeaf = true ∧
      fsOf sampleFlagLeaf "x" = some (defineFlags sampleFlagLeaf (newFlagSet "x"))) ∧
    (hasFlagDefiner sampleLeaf = false ∧
      (fsOf sampleLeaf "x" = none ∧
       engine okParse [] (ECall.disp sampleLeaf "x" []) =
         engine okParse ([] ++ [⟨"x", sampleLeaf, none⟩]) (ECall.runC sampleLeaf []))) :=
  ⟨⟨rfl, (dispatch_store_policy okParse [] sampleFlagLeaf "x" []).2.1 rfl⟩,
   ⟨rfl, (dispatch_store_policy okParse [] sampleLeaf "x" []).2.2 rfl⟩⟩

/-- C6: the command path is monotonically append-only — every engine call
only extends the path it receives (entries are never reordered, truncated or
removed); each dispatch step appends exactly one entry, for the dispatched
command itself (with its flag store), before any nested entries, so when its
`Run` begins its own entry is the last one and every ancestor's entry
precedes it; and a name that fails table lookup contributes no entry at
all — the recorded sequence is exactly the successful traversals in
traversal order. -/
theorem command_path_append_only :
    (∀ (parse : ParseStrategy) (st : List CommandInfo) (c : ECall),
      ∃ t, (engine parse st c).1 = st ++ t) ∧
    (∀ (parse : ParseStrategy) (st : List CommandInfo) (cmd : Command)
       (nm : String) (args : List String),
      ∃ t, (engine parse st (ECall.disp cmd nm args)).1 =
        st ++ ⟨nm, cmd, fsOf cmd nm⟩ :: t) ∧
    (∀ (parse : ParseStrategy) (st : List CommandInfo)
       (es : List (String × Command)) (b : Bool) (nm : String)
       (args : List String), nm ≠ "help" → lookupCmd es nm = none →
      (engine parse st (ECall.tbl es b (nm :: args))).1 = st) := by
  refine ⟨engine_appends, engine_disp_appends_entry, ?_⟩
  intro parse st es b nm args hnm h
  rw [engine_tbl_miss parse st b args hnm h]

/-- Witness for C6: a failed lookup of `foo` in the empty table leaves the
path exactly as it was. -/
theorem command_path_append_only_witness :
    ("foo" : String) ≠ "help" ∧
    (engine okParse [⟨"prog", sampleLeaf, none⟩] (ECall.tbl [] false ["foo"])).1 =
      [⟨"prog", sampleLeaf, none⟩] :=
  ⟨by decide,
   command_path_append_only.2.2 okParse [⟨"prog", sampleLeaf, none⟩] [] false
     "foo" [] (by decide) rfl⟩

/-- C7: a `Container` with none of its four override functions set is
transparent: its probed `Name`, `Synopsis` and `Description` equal the
capability-probed values of the wrapped command (empty string when the
capability is absent), its `DefineFlags` performs exactly the wrapped
command's flag definition (a no-op when absent), and its `Run` returns
exactly what the wrapped command's `Run` returns for the same execution state
and arguments. -/
theorem container_no_overrides_transparent (w : Command) :
    name (Command.container w none none none none) = name w ∧
    synopsis (Command.container w none none none none) = synopsis w ∧
    description (Command.container w none none none none) = description w ∧
    (∀ fs : FlagSet,
      defineFlags (Command.container w none none none none) fs = defineFlags w fs) ∧
    (∀ (parse : ParseStrategy) (st : List CommandInfo) (args : List String),
      engine parse st (ECall.runC (Command.container w none none none none) args) =
        engine parse st (ECall.runC w args)) :=
  ⟨rfl, rfl, rfl, fun _ => rfl,
   fun parse st args => engine_runC_container parse st w none none none none args⟩

/-- C8 counterexample: with a root command whose probed `Name()` is
`rootname`, `Runner.Main` records `rootname` as the top-level path entry name
(runner.go lines 68-71 try `name(cmd)` first) — not the base name `prog` of
`argv[0] = /usr/bin/prog` as the claim states. -/
theorem root_name_prefers_probed_name :
    (runnerMain okParse namedRootLeaf "/usr/bin/prog" [] false).2 =
      [⟨"rootname", namedRootLeaf, none⟩] ∧
    pathBase "/usr/bin/prog" = "prog" ∧
    ("rootname" : String) ≠ "prog" := by
  have hexe : mainExe namedRootLeaf "/usr/bin/prog" = "rootname" := rfl
  have hfs : fsOf namedRootLeaf "rootname" = none := rfl
  refine ⟨?_, by decide, by decide⟩
  show (engine okParse [] (ECall.disp namedRootLeaf
    (mainExe namedRootLeaf "/usr/bin/prog") [])).1 = _
  rw [hexe, engine_disp_none okParse [] [] hfs]
  simp only [namedRootLeaf]
  rw [engine_runC_leaf]
  simp [namedRootLeaf]

/-- C8 (amended): the name recorded for the top-level path entry is the root
command's probed `Name()` when that is non-empty, and only otherwise the base
name of the invoked program (`argv[0]`); the remaining argv tokens are passed
unchanged as the root command's arguments (for a flagless root leaf, `Run`
receives exactly them). -/
theorem root_step_name_and_args :
    (∀ (parse : ParseStrategy) (cmd : Command) (argv0 : String)
       (rest : List String) (cancelled : Bool),
      ((runnerMain parse cmd argv0 rest cancelled).2).head? =
        some ⟨mainExe cmd argv0, cmd, fsOf cmd (mainExe cmd argv0)⟩) ∧
    (∀ (cmd : Command) (argv0 : String),
      mainExe cmd argv0 = if name cmd = "" then pathBase argv0 else name cmd) ∧
    (∀ (parse : ParseStrategy) (n s d : Option String)
       (f : List String → Option CError) (argv0 : String) (rest : List String)
       (cancelled : Bool),
      (runnerMain parse (Command.leaf n s d none f) argv0 rest cancelled).1 =
        resolveOutcome (f rest) cancelled) := by
  refine ⟨?_, fun cmd argv0 => rfl, ?_⟩
  · intro parse cmd argv0 rest cancelled
    obtain ⟨t, ht⟩ := engine_disp_appends_entry parse [] cmd (mainExe cmd argv0) rest
    show (engine parse [] (ECall.disp cmd (mainExe cmd argv0) rest)).1.head? = _
    rw [ht]
    rfl
  · intro parse n s d f argv0 rest cancelled
    have hfs : fsOf (Command.leaf n s d none f) (mainExe (Command.leaf n s d none f) argv0) =
        none := rfl
    show resolveOutcome (engine parse [] (ECall.disp (Command.leaf n s d none f)
      (mainExe (Command.leaf n s d none f) argv0) rest)).2 cancelled = _
    rw [engine_disp_none parse [] rest hfs, engine_runC_leaf]

/-- The `trapSeq` counting invariant: starting from per-signal counters all
below the threshold `n`, the callback fires once per `n`-th reception of the
same signal kind (integer division), and each final counter is the remainder
— counters are tracked per kind and reset to zero on firing. -/
theorem trapSeqRun_invariant (n : Nat) (hn : 0 < n) :
    ∀ (sigs : List Sig) (cnt : Sig → Nat), (∀ u, cnt u < n) →
      ∀ t, (trapSeqRun n cnt sigs).2.count t = (cnt t + sigs.count t) / n ∧
           (trapSeqRun n cnt sigs).1 t = (cnt t + sigs.count t) % n := by
  intro sigs
  induction sigs with
  | nil =>
    intro cnt hc t
    simp [trapSeqRun, Nat.div_eq_of_lt (hc t), Nat.mod_eq_of_lt (hc t)]
  | cons s rest ih =>
    intro cnt hc t
    by_cases hm : cnt s + 1 = n
    · have hstep : trapSeqStep n cnt s = (updateCnt cnt s 0, true) := by
        simp [trapSeqStep, hm]
      have hrun : trapSeqRun n cnt (s :: rest) =
          ((trapSeqRun n (updateCnt cnt s 0) rest).1,
           s :: (trapSeqRun n (updateCnt cnt s 0) rest).2) := by
        simp [trapSeqRun, hstep]
      have hbound : ∀ u, updateCnt cnt s 0 u < n := by
        intro u
        by_cases hu : u = s
        · simp [updateCnt, hu, hn]
        · simp [updateCnt, hu, hc u]
      have hrec := ih (updateCnt cnt s 0) hbound t
      rw [hrun]
      by_cases hts : t = s
      · subst hts
        have hself : updateCnt cnt t 0 t = 0 := by simp [updateCnt]
        rw [hself] at hrec
        have harith : cnt t + List.count t (t :: rest) = List.count t rest + n := by
          rw [List.count_cons_self]
          omega
        constructor
        · show List.count t (t :: (trapSeqRun n (updateCnt cnt t 0) rest).2) = _
          rw [List.count_cons_self, hrec.1, harith, Nat.add_div_right _ hn]
          rw [Nat.zero_add]
        · show (trapSeqRun n (updateCnt cnt t 0) rest).1 t = _
          rw [hrec.2, harith, Nat.add_mod_right]
          rw [Nat.zero_add]
      · have hother : updateCnt cnt s 0 t = cnt t := by simp [updateCnt, hts]
        rw [hother] at hrec
        have hcc : List.count t (s :: rest) = List.count t rest :=
          List.count_cons_of_ne hts rest
        constructor
        · show List.count t (s :: (trapSeqRun n (updateCnt cnt s 0) rest).2) = _
          rw [List.count_cons_of_ne hts, hrec.1, hcc]
        · show (trapSeqRun n (updateCnt cnt s 0) rest).1 t = _
          rw [hrec.2, hcc]
    · have hstep : trapSeqStep n cnt s = (updateCnt cnt s (cnt s + 1), false) := by
        simp [trapSeqStep, hm]
      have hrun : trapSeqRun n cnt (s :: rest) =
          ((trapSeqRun n (updateCnt cnt s (cnt s + 1)) rest).1,
           (trapSeqRun n (updateCnt cnt s (cnt s + 1)) rest).2) := by
        simp [trapSeqRun, hstep]
      have hlt : cnt s + 1 < n := by
        have := hc s
        omega
      have hbound : ∀ u, updateCnt cnt s (cnt s + 1) u < n := by
        intro u
        by_cases hu : u = s
        · simp [updateCnt, hu, hlt]
        · simp [updateCnt, hu, hc u]
      have hrec := ih (updateCnt cnt s (cnt s + 1)) hbound t
      rw [hrun]
      by_cases hts : t = s
      · subst hts
        have hself : updateCnt cnt t (cnt t + 1) t = cnt t + 1 := by simp [updateCnt]
        rw [hself] at hrec
        have harith : cnt t + 1 + List.count t rest = cnt t + List.count t (t :: rest) := by
          rw [List.count_cons_self]
          omega
        constructor
        · show List.count t (trapSeqRun n (updateCnt cnt t (cnt t + 1)) rest).2 = _
          rw [hrec.1, harith]
        · show (trapSeqRun n (updateCnt cnt t (cnt t + 1)) rest).1 t = _
          rw [hrec.2, harith]
      · have hother : updateCnt cnt s (cnt s + 1) t = cnt t := by simp [updateCnt, hts]
        rw [hother] at hrec
        have hcc : List.count t (s :: rest) = List.count t rest :=
          List.count_cons_of_ne hts rest
        constructor
        · show List.count t (trapSeqRun n (updateCnt cnt s (cnt s + 1)) rest).2 = _
          rw [hrec.1, hcc]
        · show (trapSeqRun n (updateCnt cnt s (cnt s + 1)) rest).1 t = _
          rw [hrec.2, hcc]

/-- C9: with a configured force-termination threshold `n > 0`, receiving the
same signal kind `n` times fires the escape hatch installed by `Runner.Main`
— an immediate hard `os.Exit(130)`, independent of whether the running
command observes cancellation — while receiving it only `n - 1` times does
not; in general, counts are tracked per signal kind and a counter resets to
zero after firing: over any delivered sequence, the callback fires once per
`n` receptions of each kind and the final counter is the remainder. -/
theorem force_termination_threshold (n : Nat) (s : Sig) (hn : 0 < n) :
    forceTermHardExit n (List.replicate n s) = some 130 ∧
    forceTermHardExit n (List.replicate (n - 1) s) = none ∧
    (∀ (sigs : List Sig) (t : Sig),
      (trapSeqRun n (fun _ => 0) sigs).2.count t = sigs.count t / n ∧
      (trapSeqRun n (fun _ => 0) sigs).1 t = sigs.count t % n) := by
  have hbase : ∀ u : Sig, (fun _ => 0 : Sig → Nat) u < n := fun _ => hn
  have hkey : ∀ (sigs : List Sig) (t : Sig),
      (trapSeqRun n (fun _ => 0) sigs).2.count t = sigs.count t / n ∧
      (trapSeqRun n (fun _ => 0) sigs).1 t = sigs.count t % n := by
    intro sigs t
    have h := trapSeqRun_invariant n hn sigs (fun _ => 0) hbase t
    simpa using h
  refine ⟨?_, ?_, hkey⟩
  · have hcount := (hkey (List.replicate n s) s).1
    rw [List.count_replicate_self, Nat.div_self hn] at hcount
    have hne : (trapSeqRun n (fun _ => 0) (List.replicate n s)).2 ≠ [] := by
      intro hnil
      rw [hnil] at hcount
      simp at hcount
    simp [forceTermHardExit, hn, hne]
  · have hempty : (trapSeqRun n (fun _ => 0) (List.replicate (n - 1) s)).2 = [] := by
      have hall : ∀ t, (trapSeqRun n (fun _ => 0) (List.replicate (n - 1) s)).2.count t = 0 := by
        intro t
        have hc := (hkey (List.replicate (n - 1) s) t).1
        rw [List.count_replicate] at hc
        by_cases hts : t = s
        · rw [hc]
          simp [hts, Nat.div_eq_of_lt (Nat.sub_lt hn Nat.one_pos)]
        · have hst : ¬(s = t) := fun hh => hts hh.symm
          rw [hc]
          simp [hst]
      cases hnil : (trapSeqRun n (fun _ => 0) (List.replicate (n - 1) s)).2 with
      | nil => rfl
      | cons a l =>
        have := hall a
        rw [hnil, List.count_cons_self] at this
        omega
    simp [forceTermHardExit, hempty]

/-- Witness for C9 at threshold 3 and signal kind `SIGINT`: three receptions
fire the hard exit 130, two do not. -/
theorem force_termination_threshold_witness :
    0 < 3 ∧ forceTermHardExit 3 (List.replicate 3 "SIGINT") = some 130 ∧
      forceTermHardExit 3 (List.replicate (3 - 1) "SIGINT") = none :=
  ⟨by decide, (force_termination_threshold 3 "SIGINT" (by decide)).1,
   (force_termination_threshold 3 "SIGINT" (by decide)).2.1⟩
